import Mathlib

/-!
Verification of the AMQP 0-9-1 framing decoder
(`src/protocol/src/frame/parsing.rs` of Keruspe/amq-protocol).

The decoder is written with `nom` streaming combinators. We embed the byte
input as `List Nat` and the four-way outcome of a nom streaming parser as
`PResult`: success with the remaining input, `incomplete` (need more bytes,
carrying the `Needed` count), a recoverable `err` (nom `Err::Error`, which
`alt` backtracks over), and a non-recoverable `failure` (nom `Err::Failure`,
produced by `cut`, which `alt` does not backtrack over).
-/

namespace AmqProtocol

/-- Outcome of a nom streaming parser: success, incomplete, recoverable
error, or non-recoverable failure. -/
inductive PResult (α : Type) where
  | ok (rest : List Nat) (val : α)
  | incomplete (needed : Nat)
  | err
  | failure
  deriving DecidableEq, Repr

/-- Sequencing of parser outcomes, mirroring nom's `?`/`flat_map`/`tuple`
chaining: `incomplete`, `err` and `failure` all propagate. -/
def PResult.bind {α β : Type} : PResult α → (List Nat → α → PResult β) → PResult β
  | .ok rest v, f => f rest v
  | .incomplete n, _ => .incomplete n
  | .err, _ => .err
  | .failure, _ => .failure

/-- Result mapping (nom `map`), touching only the success value. -/
def PResult.pmap {α β : Type} : PResult α → (α → β) → PResult β
  | .ok rest v, f => .ok rest (f v)
  | .incomplete n, _ => .incomplete n
  | .err, _ => .err
  | .failure, _ => .failure

/-- Semantics of nom's `cut`: a recoverable `Error` becomes a `Failure`;
everything else is unchanged. -/
def cutR {α : Type} : PResult α → PResult α
  | .ok rest v => .ok rest v
  | .incomplete n => .incomplete n
  | .err => .failure
  | .failure => .failure

/-- Semantics of nom's `alt` on two branches: the second branch runs exactly
when the first returns a recoverable `Error`; `Incomplete`, `Failure` and
success short-circuit. -/
def altBind {α : Type} (r : PResult α) (second : Unit → PResult α) : PResult α :=
  match r with
  | .ok rest v => .ok rest v
  | .incomplete n => .incomplete n
  | .err => second ()
  | .failure => .failure

/-- Semantics of nom's streaming `tag`: match the literal byte by byte; if
the input runs out while agreeing with the literal the result is
`Incomplete(Needed(tag_len - input_len))`; a disagreeing byte is a
recoverable `Error`. -/
def tagP : List Nat → List Nat → PResult Unit
  | [], i => .ok i ()
  | t :: ts, [] => .incomplete (t :: ts).length
  | t :: ts, b :: bs => if t = b then tagP ts bs else .err

/-- Semantics of nom's streaming `take(n)`: with fewer than `n` bytes the
result is `Incomplete(Needed(n - input_len))`, otherwise the first `n` bytes
are returned as the value. -/
def takeP (n : Nat) (i : List Nat) : PResult (List Nat) :=
  if i.length < n then .incomplete (n - i.length) else .ok (i.drop n) (i.take n)

/-- Modelled from the spec: the 8-bit unsigned primitive decoder
(`parse_short_short_uint` of `types::parsing`, not under `src/`): "fixed-width
integer decoders (8/16/32/64-bit unsigned)", streaming. -/
def parse_short_short_uint : List Nat → PResult Nat
  | [] => .incomplete 1
  | b :: rest => .ok rest b

/-- Modelled from the spec: the 16-bit unsigned big-endian primitive decoder
(`parse_short_uint` of `types::parsing`, not under `src/`): "network byte
order / big-endian for all multi-byte integers". -/
def parse_short_uint : List Nat → PResult Nat
  | a :: b :: rest => .ok rest (a * 256 + b)
  | i => .incomplete (2 - i.length)

/-- Big-endian 32-bit value of four bytes. -/
def beNat4 (a b c d : Nat) : Nat := ((a * 256 + b) * 256 + c) * 256 + d

/-- Modelled from the spec: the 32-bit unsigned big-endian primitive decoder
(`parse_long_uint` of `types::parsing`, not under `src/`). -/
def parse_long_uint : List Nat → PResult Nat
  | a :: b :: c :: d :: rest => .ok rest (beNat4 a b c d)
  | i => .incomplete (4 - i.length)

/-- Modelled from the spec: the 64-bit unsigned big-endian primitive decoder
(`parse_long_long_uint` of `types::parsing`, not under `src/`). -/
def parse_long_long_uint : List Nat → PResult Nat
  | a :: b :: c :: d :: e :: f :: g :: h :: rest =>
      .ok rest ((((((((a * 256 + b) * 256 + c) * 256 + d) * 256 + e)
        * 256 + f) * 256 + g) * 256 + h))
  | i => .incomplete (8 - i.length)

/-- Modelled from the spec: `parse_id` of `types::parsing` (not under
`src/`) decodes an identifier, a 16-bit unsigned integer ("Channel id | 2
bytes | unsigned", "class id (2B)"). -/
def parse_id : List Nat → PResult Nat := parse_short_uint

/-- Modelled from the spec: `constants::FRAME_METHOD` (generated protocol
constants, not under `src/`); the AMQP 0-9-1 tag value for Method frames. -/
def FRAME_METHOD : Nat := 1

/-- Modelled from the spec: `constants::FRAME_HEADER`; the AMQP 0-9-1 tag
value for Header frames. -/
def FRAME_HEADER : Nat := 2

/-- Modelled from the spec: `constants::FRAME_BODY`; the AMQP 0-9-1 tag
value for Body frames. -/
def FRAME_BODY : Nat := 3

/-- Modelled from the spec: `constants::FRAME_HEARTBEAT`; the spec's example
`[8,0,1,0,0,0,0,206]` fixes the Heartbeat tag at 8. -/
def FRAME_HEARTBEAT : Nat := 8

/-- Modelled from the spec: `constants::FRAME_END`, the "Frame-end sentinel
| 1 byte | fixed value (0xCE)". -/
def FRAME_END : Nat := 206

/-- Modelled from the spec: `metadata::NAME.as_bytes()`, the "fixed 4-byte
ASCII literal identifying the protocol", `"AMQP"`. -/
def NAME_BYTES : List Nat := [65, 77, 81, 80]

/-- The frame type enumeration (`AMQPFrameType`). -/
inductive AMQPFrameType where
  | method
  | header
  | body
  | heartbeat
  deriving DecidableEq, Repr

/-- The protocol version triple (`ProtocolVersion`). -/
structure ProtocolVersion where
  major : Nat
  minor : Nat
  revision : Nat
  deriving DecidableEq, Repr

/-- A raw frame (`AMQPRawFrame`): frame type, channel id, uninterpreted
payload bytes. -/
structure AMQPRawFrame where
  frame_type : AMQPFrameType
  channel_id : Nat
  payload : List Nat
  deriving DecidableEq, Repr

/-- A content header (`AMQPContentHeader`), with the externally decoded
property table abstracted as a type parameter `P`. -/
structure AMQPContentHeader (P : Type) where
  class_id : Nat
  weight : Nat
  body_size : Nat
  properties : P
  deriving DecidableEq, Repr

/-- The decoded frame (`AMQPFrame`), with the externally decoded method
payload `M` and property table `P` abstract. -/
inductive AMQPFrame (M P : Type) where
  | protocolHeader (version : ProtocolVersion)
  | method (channel_id : Nat) (payload : M)
  | header (channel_id : Nat) (class_id : Nat) (content : AMQPContentHeader P)
  | body (channel_id : Nat) (payload : List Nat)
  | heartbeat (channel_id : Nat)
  deriving DecidableEq, Repr

/-- The tag-byte-to-frame-type mapping inside `parse_frame_type`: the
`match` passed to `map_opt`. -/
def decodeFrameType (b : Nat) : Option AMQPFrameType :=
  if b = FRAME_METHOD then some .method
  else if b = FRAME_HEADER then some .header
  else if b = FRAME_BODY then some .body
  else if b = FRAME_HEARTBEAT then some .heartbeat
  else none

/-- `parse_frame_type`: one byte through `map_opt`; an unknown tag value is
a recoverable `Error` (`map_opt` returning `None`). -/
def parse_frame_type (i : List Nat) : PResult AMQPFrameType :=
  (parse_short_short_uint i).bind fun rest b =>
    match decodeFrameType b with
    | some ft => .ok rest ft
    | none => .err

/-- `parse_protocol_header`: the literal `"AMQP"`, a zero byte, then three
8-bit version components. -/
def parse_protocol_header (i : List Nat) : PResult ProtocolVersion :=
  (tagP NAME_BYTES i).bind fun i1 _ =>
  (tagP [0] i1).bind fun i2 _ =>
  (parse_short_short_uint i2).bind fun i3 major =>
  (parse_short_short_uint i3).bind fun i4 minor =>
  (parse_short_short_uint i4).bind fun i5 revision =>
    .ok i5 ⟨major, minor, revision⟩

/-- `parse_raw_frame`: frame type, then — under `cut`, so every recoverable
error past this point becomes a `Failure` — channel id, 32-bit payload size,
exactly `size` payload bytes, and the frame-end sentinel. -/
def parse_raw_frame (i : List Nat) : PResult AMQPRawFrame :=
  (parse_frame_type i).bind fun i1 frame_type =>
    cutR (
      (parse_id i1).bind fun i2 channel_id =>
      (parse_long_uint i2).bind fun i3 size =>
      (takeP size i3).bind fun i4 payload =>
      (tagP [FRAME_END] i4).bind fun i5 _ =>
        .ok i5 ⟨frame_type, channel_id, payload⟩)

/-- `parse_content_header`: class id, weight, 64-bit body size, then the
external property-table decoder. -/
def parse_content_header {P : Type} (parse_properties : List Nat → PResult P)
    (i : List Nat) : PResult (AMQPContentHeader P) :=
  (parse_id i).bind fun i1 class_id =>
  (parse_short_uint i1).bind fun i2 weight =>
  (parse_long_long_uint i2).bind fun i3 body_size =>
  (parse_properties i3).bind fun i4 properties =>
    .ok i4 ⟨class_id, weight, body_size, properties⟩

/-- The `map_res` closure of `parse_frame`: dispatch a successfully
extracted raw frame on its type. Method and Header payloads go through
`all_consuming`, so a payload decode that is itself incomplete, erroneous,
or leaves bytes over makes the closure return `Err`, which `map_res` turns
into a recoverable `Error`. -/
def dispatchRawFrame {M P : Type} (parse_class : List Nat → PResult M)
    (parse_properties : List Nat → PResult P)
    (rest : List Nat) (f : AMQPRawFrame) : PResult (AMQPFrame M P) :=
  match f.frame_type with
  | .method =>
      match parse_class f.payload with
      | .ok [] m => .ok rest (.method f.channel_id m)
      | _ => .err
  | .header =>
      match parse_content_header parse_properties f.payload with
      | .ok [] h => .ok rest (.header f.channel_id h.class_id h)
      | _ => .err
  | .body => .ok rest (.body f.channel_id f.payload)
  | .heartbeat => .ok rest (.heartbeat f.channel_id)

/-- `parse_frame`: `alt` of `map_res(parse_raw_frame, dispatch)` and
`map(parse_protocol_header, ProtocolHeader)`, in that order, abstracted over
the external class decoder (`parse_class`) and property-table decoder
(`parse_properties`). -/
def parse_frame {M P : Type} (parse_class : List Nat → PResult M)
    (parse_properties : List Nat → PResult P) (i : List Nat) :
    PResult (AMQPFrame M P) :=
  altBind
    ((parse_raw_frame i).bind fun rest f =>
      dispatchRawFrame parse_class parse_properties rest f)
    (fun _ => (parse_protocol_header i).pmap .protocolHeader)

/-- The three-way outcome of the spec ("Success", "Incomplete", "Fatal"):
nom's recoverable `Error` and non-recoverable `Failure` are both fatal to
the top-level caller. -/
inductive Outcome (α : Type) where
  | success (rest : List Nat) (val : α)
  | incomplete
  | fatal
  deriving DecidableEq, Repr

/-- Classification of a parser result as the spec's three-way outcome. -/
def toOutcome {α : Type} : PResult α → Outcome α
  | .ok rest v => .success rest v
  | .incomplete _ => .incomplete
  | .err => .fatal
  | .failure => .fatal

/-- The spec's description of the top-level entry point, for the refinement
claim: "try Protocol Header Recognizer first; if its fixed literal does not
match, fall back to Raw-Frame-Extraction-then-Dispatch". -/
def parse_frame_spec {M P : Type} (parse_class : List Nat → PResult M)
    (parse_properties : List Nat → PResult P) (i : List Nat) :
    PResult (AMQPFrame M P) :=
  altBind
    ((parse_protocol_header i).pmap .protocolHeader)
    (fun _ => (parse_raw_frame i).bind fun rest f =>
      dispatchRawFrame parse_class parse_properties rest f)

/-- Big-endian 4-byte encoding of a 32-bit value, for stating the claims
that quantify over the declared payload size. -/
def encodeLongUInt (s : Nat) : List Nat :=
  [s / 2 ^ 24 % 256, s / 2 ^ 16 % 256, s / 2 ^ 8 % 256, s % 256]

/-! ## Helper lemmas -/

theorem takeP_ok_iff {n : Nat} {i rest v : List Nat} :
    takeP n i = .ok rest v ↔ n ≤ i.length ∧ rest = i.drop n ∧ v = i.take n := by
  unfold takeP
  split
  · rename_i hlt
    constructor
    · intro h; cases h
    · rintro ⟨h1, -, -⟩; omega
  · rename_i hlt
    constructor
    · intro h
      injection h with h1 h2
      exact ⟨by omega, h1.symm, h2.symm⟩
    · rintro ⟨-, h2, h3⟩
      rw [h2, h3]

theorem tagP_single_ok_iff {b : Nat} {i rest : List Nat} :
    tagP [b] i = .ok rest () ↔ i = b :: rest := by
  cases i with
  | nil => simp [tagP]
  | cons c cs =>
      simp only [tagP]
      split
      · simp [tagP]; omega
      · simp; omega

theorem decodeFrameType_ne_65 {t : Nat} {ft : AMQPFrameType}
    (h : decodeFrameType t = some ft) : t ≠ 65 := by
  intro he
  subst he
  simp [decodeFrameType, FRAME_METHOD, FRAME_HEADER, FRAME_BODY, FRAME_HEARTBEAT] at h

theorem parse_raw_frame_ok_inv {i rest : List Nat} {f : AMQPRawFrame}
    (h : parse_raw_frame i = .ok rest f) :
    ∃ t c1 c2 s1 s2 s3 s4,
      i = t :: c1 :: c2 :: s1 :: s2 :: s3 :: s4 :: (f.payload ++ FRAME_END :: rest) ∧
      decodeFrameType t = some f.frame_type ∧
      f.channel_id = c1 * 256 + c2 ∧
      f.payload.length = beNat4 s1 s2 s3 s4 := by
  match i with
  | [] =>
      simp [parse_raw_frame, parse_frame_type, parse_short_short_uint, PResult.bind] at h
  | t :: i1 =>
      simp only [parse_raw_frame, parse_frame_type, parse_short_short_uint,
        PResult.bind] at h
      cases hft : decodeFrameType t with
      | none => rw [hft] at h; simp [PResult.bind, cutR] at h
      | some ft =>
          rw [hft] at h
          simp only [PResult.bind] at h
          match i1 with
          | [] => simp [parse_id, parse_short_uint, PResult.bind, cutR] at h
          | [c1] => simp [parse_id, parse_short_uint, PResult.bind, cutR] at h
          | c1 :: c2 :: i2 =>
              simp only [parse_id, parse_short_uint, PResult.bind] at h
              match i2 with
              | [] => simp [parse_long_uint, PResult.bind, cutR] at h
              | [s1] => simp [parse_long_uint, PResult.bind, cutR] at h
              | [s1, s2] => simp [parse_long_uint, PResult.bind, cutR] at h
              | [s1, s2, s3] => simp [parse_long_uint, PResult.bind, cutR] at h
              | s1 :: s2 :: s3 :: s4 :: i3 =>
                  simp only [parse_long_uint, PResult.bind] at h
                  cases htk : takeP (beNat4 s1 s2 s3 s4) i3 with
                  | incomplete n => rw [htk] at h; simp [PResult.bind, cutR] at h
                  | err => rw [htk] at h; simp [PResult.bind, cutR] at h
                  | failure => rw [htk] at h; simp [PResult.bind, cutR] at h
                  | ok i4 payload =>
                      rw [htk] at h
                      simp only [PResult.bind] at h
                      rcases takeP_ok_iff.mp htk with ⟨hle, hi4, hpay⟩
                      cases htag : tagP [FRAME_END] i4 with
                      | incomplete n => rw [htag] at h; simp [PResult.bind, cutR] at h
                      | err => rw [htag] at h; simp [PResult.bind, cutR] at h
                      | failure => rw [htag] at h; simp [PResult.bind, cutR] at h
                      | ok i5 u =>
                          rw [htag] at h
                          cases u
                          simp only [PResult.bind, cutR] at h
                          injection h with hrest hf
                          subst hrest
                          subst hf
                          have hi4e : i4 = FRAME_END :: i5 := tagP_single_ok_iff.mp htag
                          have hsplit : payload ++ FRAME_END :: i5 = i3 := by
                            rw [hpay, ← hi4e, hi4]
                            exact List.take_append_drop _ _
                          refine ⟨t, c1, c2, s1, s2, s3, s4, ?_, hft, rfl, ?_⟩
                          · rw [hsplit]
                          · rw [hpay, List.length_take]
                            omega

theorem parse_raw_frame_build {t c1 c2 s1 s2 s3 s4 : Nat} {ft : AMQPFrameType}
    {payload rest : List Nat}
    (hft : decodeFrameType t = some ft)
    (hlen : payload.length = beNat4 s1 s2 s3 s4) :
    parse_raw_frame (t :: c1 :: c2 :: s1 :: s2 :: s3 :: s4 ::
        (payload ++ FRAME_END :: rest))
      = .ok rest ⟨ft, c1 * 256 + c2, payload⟩ := by
  simp only [parse_raw_frame, parse_frame_type, parse_short_short_uint, PResult.bind,
    hft, parse_id, parse_short_uint, parse_long_uint]
  have htk : takeP (beNat4 s1 s2 s3 s4) (payload ++ FRAME_END :: rest)
      = .ok (FRAME_END :: rest) payload := by
    rw [takeP_ok_iff]
    refine ⟨by simp [← hlen], ?_, ?_⟩
    · rw [← hlen, List.drop_left]
    · rw [← hlen, List.take_left]
  rw [htk]
  simp only [PResult.bind]
  have htag : tagP [FRAME_END] (FRAME_END :: rest) = .ok rest () :=
    tagP_single_ok_iff.mpr rfl
  rw [htag]
  simp [PResult.bind, cutR]

theorem parse_raw_frame_short {t c1 c2 s1 s2 s3 s4 : Nat} {ft : AMQPFrameType}
    {tail : List Nat}
    (hft : decodeFrameType t = some ft)
    (hshort : tail.length ≤ beNat4 s1 s2 s3 s4) :
    ∃ n, parse_raw_frame (t :: c1 :: c2 :: s1 :: s2 :: s3 :: s4 :: tail)
      = .incomplete n := by
  simp only [parse_raw_frame, parse_frame_type, parse_short_short_uint, PResult.bind,
    hft, parse_id, parse_short_uint, parse_long_uint]
  rcases Nat.lt_or_ge tail.length (beNat4 s1 s2 s3 s4) with hlt | hge
  · refine ⟨beNat4 s1 s2 s3 s4 - tail.length, ?_⟩
    have htk : takeP (beNat4 s1 s2 s3 s4) tail
        = .incomplete (beNat4 s1 s2 s3 s4 - tail.length) := by
      unfold takeP
      simp [hlt]
    rw [htk]
    simp [PResult.bind, cutR]
  · have heq : tail.length = beNat4 s1 s2 s3 s4 := le_antisymm hshort hge
    refine ⟨1, ?_⟩
    have htk : takeP (beNat4 s1 s2 s3 s4) tail = .ok [] tail := by
      rw [takeP_ok_iff]
      refine ⟨hge, ?_, ?_⟩
      · rw [← heq, List.drop_length]
      · rw [← heq, List.take_length]
    rw [htk]
    simp [PResult.bind, tagP, cutR]

theorem parse_raw_frame_rest_eq {i rest : List Nat} {f : AMQPRawFrame}
    (h : parse_raw_frame i = .ok rest f) :
    rest = i.drop (8 + f.payload.length) := by
  rcases parse_raw_frame_ok_inv h with ⟨t, c1, c2, s1, s2, s3, s4, hi, -, -, -⟩
  subst hi
  rw [show 8 + f.payload.length
      = f.payload.length + 1 + 1 + 1 + 1 + 1 + 1 + 1 + 1 from by omega]
  simp only [List.drop_succ_cons]
  rw [show f.payload ++ FRAME_END :: rest = (f.payload ++ [FRAME_END]) ++ rest from by simp]
  rw [show f.payload.length + 1 = (f.payload ++ [FRAME_END]).length from by simp]
  exact (List.drop_left _ _).symm

theorem toOutcome_altBind_errsec {α : Type} (r : PResult α) :
    toOutcome (altBind r (fun _ => PResult.err)) = toOutcome r := by
  cases r <;> rfl

/-! ## Claims -/

/-- C1: for every byte buffer that starts a well-formed frame (valid
frame-type tag, channel id and declared 32-bit payload size all present)
but is truncated before the frame-end sentinel byte is present — the bytes
after the 7-byte envelope do not reach past the declared payload —
`parse_raw_frame`, and hence `parse_frame`, returns the Incomplete outcome:
never a fatal error and never success. -/
theorem claim_C1 {M P : Type} (parse_class : List Nat → PResult M)
    (parse_properties : List Nat → PResult P)
    {t c1 c2 s1 s2 s3 s4 : Nat} {ft : AMQPFrameType} {tail : List Nat}
    (hft : decodeFrameType t = some ft)
    (hshort : tail.length ≤ beNat4 s1 s2 s3 s4) :
    toOutcome (parse_raw_frame (t :: c1 :: c2 :: s1 :: s2 :: s3 :: s4 :: tail))
        = .incomplete ∧
    toOutcome (parse_frame parse_class parse_properties
        (t :: c1 :: c2 :: s1 :: s2 :: s3 :: s4 :: tail)) = .incomplete := by
  rcases parse_raw_frame_short hft hshort with ⟨n, hn⟩
  constructor
  · rw [hn]
    rfl
  · unfold parse_frame
    rw [hn]
    rfl

theorem claim_C1_witness :
    decodeFrameType 8 = some AMQPFrameType.heartbeat ∧
    ([9] : List Nat).length ≤ beNat4 0 0 0 2 ∧
    (toOutcome (parse_raw_frame [8, 0, 1, 0, 0, 0, 2, 9]) = .incomplete ∧
     toOutcome (parse_frame (fun _ => (PResult.err : PResult Unit))
        (fun _ => (PResult.err : PResult Unit)) [8, 0, 1, 0, 0, 0, 2, 9])
          = .incomplete) :=
  ⟨by decide, by decide,
    claim_C1 (fun _ => (PResult.err : PResult Unit))
      (fun _ => (PResult.err : PResult Unit))
      (show decodeFrameType 8 = some AMQPFrameType.heartbeat by decide)
      (show ([9] : List Nat).length ≤ beNat4 0 0 0 2 by decide)⟩

/-- C2: for every buffer holding a valid frame-type tag, channel id,
declared payload size and exactly that many payload bytes, if the byte at
the frame-end position is present and differs from the sentinel 0xCE,
`parse_raw_frame` returns the non-backtracking `Failure` (and so does
`parse_frame`: the bytes are never reinterpreted another way), regardless
of the payload content. -/
theorem claim_C2 {M P : Type} (parse_class : List Nat → PResult M)
    (parse_properties : List Nat → PResult P)
    {t c1 c2 s1 s2 s3 s4 e : Nat} {ft : AMQPFrameType} {payload rest : List Nat}
    (hft : decodeFrameType t = some ft)
    (hlen : payload.length = beNat4 s1 s2 s3 s4)
    (he : e ≠ FRAME_END) :
    parse_raw_frame (t :: c1 :: c2 :: s1 :: s2 :: s3 :: s4 ::
        (payload ++ e :: rest)) = .failure ∧
    parse_frame parse_class parse_properties (t :: c1 :: c2 :: s1 :: s2 :: s3 ::
        s4 :: (payload ++ e :: rest)) = .failure := by
  have hraw : parse_raw_frame (t :: c1 :: c2 :: s1 :: s2 :: s3 :: s4 ::
      (payload ++ e :: rest)) = .failure := by
    simp only [parse_raw_frame, parse_frame_type, parse_short_short_uint,
      PResult.bind, hft, parse_id, parse_short_uint, parse_long_uint]
    have htk : takeP (beNat4 s1 s2 s3 s4) (payload ++ e :: rest)
        = .ok (e :: rest) payload := by
      rw [takeP_ok_iff]
      refine ⟨by simp [← hlen], ?_, ?_⟩
      · rw [← hlen, List.drop_left]
      · rw [← hlen, List.take_left]
    rw [htk]
    simp only [PResult.bind, tagP]
    rw [if_neg (fun hh => he hh.symm)]
    rfl
  refine ⟨hraw, ?_⟩
  unfold parse_frame
  rw [hraw]
  rfl

theorem claim_C2_witness :
    decodeFrameType 8 = some AMQPFrameType.heartbeat ∧
    ([5] : List Nat).length = beNat4 0 0 0 1 ∧
    (0 : Nat) ≠ FRAME_END ∧
    (parse_raw_frame [8, 0, 1, 0, 0, 0, 1, 5, 0] = .failure ∧
     parse_frame (fun _ => (PResult.err : PResult Unit))
        (fun _ => (PResult.err : PResult Unit)) [8, 0, 1, 0, 0, 0, 1, 5, 0]
          = .failure) :=
  ⟨by decide, by decide, by decide,
    claim_C2 (fun _ => (PResult.err : PResult Unit))
      (fun _ => (PResult.err : PResult Unit))
      (show decodeFrameType 8 = some AMQPFrameType.heartbeat by decide)
      (show ([5] : List Nat).length = beNat4 0 0 0 1 by decide)
      (show (0 : Nat) ≠ FRAME_END by decide)⟩

/-- C3: for every input whose first byte is present and is none of the four
defined frame-type tag values, `parse_frame_type` — and with it the raw
frame extractor — fails with a fatal decode error (the recoverable nom
`Error`, a fatal outcome in the three-way classification), not with the
Incomplete outcome. -/
theorem claim_C3 {b : Nat} (rest : List Nat)
    (h1 : b ≠ FRAME_METHOD) (h2 : b ≠ FRAME_HEADER)
    (h3 : b ≠ FRAME_BODY) (h4 : b ≠ FRAME_HEARTBEAT) :
    parse_frame_type (b :: rest) = .err ∧
    toOutcome (parse_raw_frame (b :: rest)) = .fatal := by
  have hnone : decodeFrameType b = none := by
    simp [decodeFrameType, h1, h2, h3, h4]
  constructor
  · simp [parse_frame_type, parse_short_short_uint, PResult.bind, hnone]
  · simp [parse_raw_frame, parse_frame_type, parse_short_short_uint,
      PResult.bind, hnone, toOutcome]

theorem claim_C3_witness :
    (42 : Nat) ≠ FRAME_METHOD ∧ (42 : Nat) ≠ FRAME_HEADER ∧
    (42 : Nat) ≠ FRAME_BODY ∧ (42 : Nat) ≠ FRAME_HEARTBEAT ∧
    (parse_frame_type [42, 0, 1] = .err ∧
     toOutcome (parse_raw_frame [42, 0, 1]) = .fatal) :=
  ⟨by decide, by decide, by decide, by decide,
    claim_C3 [0, 1] (by decide) (by decide) (by decide) (by decide)⟩

/-- C9: for every successfully extracted raw frame of type Heartbeat,
`parse_frame` returns `Heartbeat(channel_id)` regardless of the payload:
a non-empty heartbeat payload is silently ignored rather than rejected. -/
theorem claim_C9 {M P : Type} (parse_class : List Nat → PResult M)
    (parse_properties : List Nat → PResult P) {i rest : List Nat}
    {f : AMQPRawFrame}
    (h : parse_raw_frame i = .ok rest f) (hhb : f.frame_type = .heartbeat) :
    parse_frame parse_class parse_properties i
      = .ok rest (.heartbeat f.channel_id) := by
  unfold parse_frame
  rw [h]
  simp only [PResult.bind]
  unfold dispatchRawFrame
  rw [hhb]
  rfl

theorem claim_C9_witness :
    parse_raw_frame [8, 0, 1, 0, 0, 0, 2, 170, 187, 206]
      = .ok [] ⟨AMQPFrameType.heartbeat, 1, [170, 187]⟩ ∧
    (⟨AMQPFrameType.heartbeat, 1, [170, 187]⟩ : AMQPRawFrame).frame_type
      = AMQPFrameType.heartbeat ∧
    parse_frame (fun _ => (PResult.err : PResult Unit))
        (fun _ => (PResult.err : PResult Unit)) [8, 0, 1, 0, 0, 0, 2, 170, 187, 206]
      = .ok [] (.heartbeat 1) :=
  ⟨by decide, by decide,
    claim_C9 (fun _ => (PResult.err : PResult Unit))
      (fun _ => (PResult.err : PResult Unit))
      (show parse_raw_frame [8, 0, 1, 0, 0, 0, 2, 170, 187, 206]
        = .ok [] ⟨AMQPFrameType.heartbeat, 1, [170, 187]⟩ by decide)
      (show (⟨AMQPFrameType.heartbeat, 1, [170, 187]⟩ : AMQPRawFrame).frame_type
        = AMQPFrameType.heartbeat by decide)⟩

/-- C4: for every successfully extracted raw frame of type Method or
Header, if the external payload decoder succeeds but leaves one or more
payload bytes unconsumed, `parse_frame` yields a fatal outcome, not
success. -/
theorem claim_C4 {M P : Type} (parse_class : List Nat → PResult M)
    (parse_properties : List Nat → PResult P) {i rest l : List Nat}
    {f : AMQPRawFrame}
    (hraw : parse_raw_frame i = .ok rest f)
    (hne : l ≠ [])
    (hleft : (f.frame_type = .method ∧ ∃ m, parse_class f.payload = .ok l m) ∨
             (f.frame_type = .header ∧
               ∃ h, parse_content_header parse_properties f.payload = .ok l h)) :
    toOutcome (parse_frame parse_class parse_properties i) = .fatal := by
  rcases parse_raw_frame_ok_inv hraw with ⟨t, c1, c2, s1, s2, s3, s4, hi, hft, -, -⟩
  have ht65 : t ≠ 65 := decodeFrameType_ne_65 hft
  have hhdr : parse_protocol_header i = .err := by
    rw [hi]
    simp only [parse_protocol_header, NAME_BYTES, tagP]
    rw [if_neg (fun hh => ht65 hh.symm)]
    rfl
  have hdisp : dispatchRawFrame parse_class parse_properties rest f = .err := by
    rcases hleft with ⟨hm, m, hpc⟩ | ⟨hh, h, hpc⟩
    · unfold dispatchRawFrame
      rw [hm, hpc]
      cases l with
      | nil => exact absurd rfl hne
      | cons x xs => rfl
    · unfold dispatchRawFrame
      rw [hh, hpc]
      cases l with
      | nil => exact absurd rfl hne
      | cons x xs => rfl
  unfold parse_frame
  rw [hraw]
  simp only [PResult.bind]
  rw [hdisp]
  simp only [altBind]
  rw [hhdr]
  rfl

theorem claim_C4_witness :
    parse_raw_frame [1, 0, 1, 0, 0, 0, 1, 7, 206]
      = .ok [] ⟨AMQPFrameType.method, 1, [7]⟩ ∧
    ([9] : List Nat) ≠ [] ∧
    toOutcome (parse_frame (fun _ => (PResult.ok [9] () : PResult Unit))
        (fun _ => (PResult.err : PResult Unit)) [1, 0, 1, 0, 0, 0, 1, 7, 206])
      = .fatal :=
  ⟨by decide, by decide,
    claim_C4 (fun _ => (PResult.ok [9] () : PResult Unit))
      (fun _ => (PResult.err : PResult Unit))
      (show parse_raw_frame [1, 0, 1, 0, 0, 0, 1, 7, 206]
        = .ok [] ⟨AMQPFrameType.method, 1, [7]⟩ by decide)
      (show ([9] : List Nat) ≠ [] by decide)
      (Or.inl ⟨by decide, ⟨(), by decide⟩⟩)⟩

/-- C5: on every successful `parse_raw_frame` the returned payload has
length exactly the declared 32-bit size field, exactly 1+2+4+size+1 input
bytes are consumed (the sentinel is consumed but not retained), and the
returned remainder is exactly the unconsumed suffix of the input — so a
buffer holding two back-to-back valid frames yields two successive
successes when the decoder is invoked twice. -/
theorem claim_C5 {i rest : List Nat} {f : AMQPRawFrame}
    (h : parse_raw_frame i = .ok rest f) :
    (∃ t c1 c2 s1 s2 s3 s4,
      i = t :: c1 :: c2 :: s1 :: s2 :: s3 :: s4 ::
        (f.payload ++ FRAME_END :: rest) ∧
      f.payload.length = beNat4 s1 s2 s3 s4) ∧
    rest = i.drop (8 + f.payload.length) ∧
    (∀ rest2 f2, parse_raw_frame rest = PResult.ok rest2 f2 →
      rest2 = rest.drop (8 + f2.payload.length)) := by
  refine ⟨?_, parse_raw_frame_rest_eq h, ?_⟩
  · rcases parse_raw_frame_ok_inv h with ⟨t, c1, c2, s1, s2, s3, s4, hi, -, -, hplen⟩
    exact ⟨t, c1, c2, s1, s2, s3, s4, hi, hplen⟩
  · intro rest2 f2 h2
    exact parse_raw_frame_rest_eq h2

theorem claim_C5_witness :
    parse_raw_frame [8, 0, 1, 0, 0, 0, 0, 206, 8, 0, 2, 0, 0, 0, 1, 5, 206]
      = .ok [8, 0, 2, 0, 0, 0, 1, 5, 206] ⟨AMQPFrameType.heartbeat, 1, []⟩ ∧
    ((∃ t c1 c2 s1 s2 s3 s4,
      ([8, 0, 1, 0, 0, 0, 0, 206, 8, 0, 2, 0, 0, 0, 1, 5, 206] : List Nat)
        = t :: c1 :: c2 :: s1 :: s2 :: s3 :: s4 ::
          (([] : List Nat) ++ FRAME_END :: [8, 0, 2, 0, 0, 0, 1, 5, 206]) ∧
      ([] : List Nat).length = beNat4 s1 s2 s3 s4) ∧
    ([8, 0, 2, 0, 0, 0, 1, 5, 206] : List Nat)
      = ([8, 0, 1, 0, 0, 0, 0, 206, 8, 0, 2, 0, 0, 0, 1, 5, 206] : List Nat).drop
          (8 + ([] : List Nat).length) ∧
    (∀ rest2 f2,
      parse_raw_frame [8, 0, 2, 0, 0, 0, 1, 5, 206] = PResult.ok rest2 f2 →
      rest2 = ([8, 0, 2, 0, 0, 0, 1, 5, 206] : List Nat).drop
        (8 + f2.payload.length))) :=
  ⟨by decide,
    claim_C5 (show parse_raw_frame
        [8, 0, 1, 0, 0, 0, 0, 206, 8, 0, 2, 0, 0, 0, 1, 5, 206]
      = .ok [8, 0, 2, 0, 0, 0, 1, 5, 206] ⟨AMQPFrameType.heartbeat, 1, []⟩
      by decide)⟩

/-- C7: for every 16-bit channel id C, decoding the valid Heartbeat
encoding — Heartbeat tag, big-endian 2-byte channel, 4-byte size 0, the
sentinel — yields `Heartbeat(C)`, consumes exactly the 8 bytes and leaves
zero leftover. -/
theorem claim_C7 {M P : Type} (parse_class : List Nat → PResult M)
    (parse_properties : List Nat → PResult P) {C : Nat} (hC : C < 65536) :
    parse_frame parse_class parse_properties
        [FRAME_HEARTBEAT, C / 256, C % 256, 0, 0, 0, 0, FRAME_END]
      = .ok [] (.heartbeat C) := by
  have hraw : parse_raw_frame
      [FRAME_HEARTBEAT, C / 256, C % 256, 0, 0, 0, 0, FRAME_END]
      = .ok [] ⟨.heartbeat, C, []⟩ := by
    have h0 := @parse_raw_frame_build FRAME_HEARTBEAT (C / 256) (C % 256) 0 0 0 0
      AMQPFrameType.heartbeat [] []
      (show decodeFrameType FRAME_HEARTBEAT = some AMQPFrameType.heartbeat
        by decide) rfl
    rwa [show C / 256 * 256 + C % 256 = C from by omega, List.nil_append] at h0
  unfold parse_frame
  rw [hraw]
  rfl

theorem claim_C7_witness :
    (1 : Nat) < 65536 ∧
    parse_frame (fun _ => (PResult.err : PResult Unit))
        (fun _ => (PResult.err : PResult Unit)) [8, 0, 1, 0, 0, 0, 0, 206]
      = .ok [] (.heartbeat 1) :=
  ⟨by decide, by
    have h := claim_C7 (fun _ => (PResult.err : PResult Unit))
      (fun _ => (PResult.err : PResult Unit)) (show (1 : Nat) < 65536 by decide)
    norm_num [FRAME_HEARTBEAT, FRAME_END] at h
    exact h⟩

/-- C10: `parse_raw_frame` enforces no upper bound on the declared 32-bit
payload size: for every size value s below 2^32, the size field itself is
never rejected — with fewer than s+1 bytes after the 7-byte envelope the
result is Incomplete, and with exactly s payload bytes followed by the
sentinel the frame is accepted. -/
theorem claim_C10 {t c1 c2 : Nat} {ft : AMQPFrameType} {s : Nat}
    (hs : s < 2 ^ 32) (hft : decodeFrameType t = some ft) :
    (∀ tail : List Nat, tail.length < s + 1 →
      toOutcome (parse_raw_frame (t :: c1 :: c2 :: (encodeLongUInt s ++ tail)))
        = .incomplete) ∧
    (∀ payload : List Nat, payload.length = s →
      parse_raw_frame (t :: c1 :: c2 :: (encodeLongUInt s ++ (payload ++ [FRAME_END])))
        = .ok [] ⟨ft, c1 * 256 + c2, payload⟩) := by
  have hbe : beNat4 (s / 2 ^ 24 % 256) (s / 2 ^ 16 % 256) (s / 2 ^ 8 % 256) (s % 256)
      = s := by
    unfold beNat4
    have e1 : (2 : Nat) ^ 24 = 16777216 := by norm_num
    have e2 : (2 : Nat) ^ 16 = 65536 := by norm_num
    have e3 : (2 : Nat) ^ 8 = 256 := by norm_num
    have e4 : (2 : Nat) ^ 32 = 4294967296 := by norm_num
    rw [e1, e2, e3] at *
    rw [e4] at hs
    omega
  constructor
  · intro tail htail
    simp only [encodeLongUInt, List.cons_append, List.nil_append]
    rcases parse_raw_frame_short hft (show tail.length ≤ beNat4 (s / 2 ^ 24 % 256)
        (s / 2 ^ 16 % 256) (s / 2 ^ 8 % 256) (s % 256) from by rw [hbe]; omega)
      with ⟨n, hn⟩
    rw [hn]
    rfl
  · intro payload hp
    simp only [encodeLongUInt, List.cons_append, List.nil_append]
    rw [show payload ++ [FRAME_END] = payload ++ FRAME_END :: ([] : List Nat)
      from rfl]
    exact parse_raw_frame_build hft (by rw [hbe]; exact hp)

theorem claim_C10_witness :
    (2 : Nat) < 2 ^ 32 ∧ decodeFrameType 3 = some AMQPFrameType.body ∧
    (toOutcome (parse_raw_frame (3 :: 0 :: 7 :: (encodeLongUInt 2 ++ [5])))
        = .incomplete ∧
     parse_raw_frame (3 :: 0 :: 7 :: (encodeLongUInt 2 ++ ([5, 6] ++ [FRAME_END])))
        = .ok [] ⟨AMQPFrameType.body, 7, [5, 6]⟩) :=
  ⟨by decide, by decide,
    (claim_C10 (show (2 : Nat) < 2 ^ 32 by decide)
      (show decodeFrameType 3 = some AMQPFrameType.body by decide)).1
      [5] (by decide),
    (claim_C10 (show (2 : Nat) < 2 ^ 32 by decide)
      (show decodeFrameType 3 = some AMQPFrameType.body by decide)).2
      [5, 6] (by decide)⟩

/-- C6: the implemented top-level entry point (`alt` trying raw-frame
extraction then the protocol header) yields, on every input and for every
external class and property decoder, the same three-way outcome as the
spec's ordering that tries the Protocol Header Recognizer first — the two
grammars are prefix-disjoint on their first bytes. -/
theorem claim_C6 {M P : Type} (parse_class : List Nat → PResult M)
    (parse_properties : List Nat → PResult P) (i : List Nat) :
    toOutcome (parse_frame parse_class parse_properties i)
      = toOutcome (parse_frame_spec parse_class parse_properties i) := by
  cases i with
  | nil => rfl
  | cons b bs =>
      unfold parse_frame parse_frame_spec
      cases hft : decodeFrameType b with
      | none =>
          have hraw : parse_raw_frame (b :: bs) = PResult.err := by
            simp [parse_raw_frame, parse_frame_type, parse_short_short_uint,
              PResult.bind, hft]
          rw [hraw]
          simp only [PResult.bind]
          rw [show altBind PResult.err
              (fun _ => (parse_protocol_header (b :: bs)).pmap
                AMQPFrame.protocolHeader)
            = (parse_protocol_header (b :: bs)).pmap AMQPFrame.protocolHeader
            from rfl]
          exact (toOutcome_altBind_errsec _).symm
      | some ft =>
          have ht65 : b ≠ 65 := decodeFrameType_ne_65 hft
          have hhdr : parse_protocol_header (b :: bs) = PResult.err := by
            simp only [parse_protocol_header, NAME_BYTES, tagP]
            rw [if_neg (fun hh => ht65 hh.symm)]
            rfl
          rw [hhdr]
          simp only [PResult.pmap]
          rw [toOutcome_altBind_errsec]
          rfl

theorem tagP_ok_append {t i i2 : List Nat} {u : Unit}
    (h : tagP t i = .ok i2 u) : i = t ++ i2 := by
  induction t generalizing i with
  | nil =>
      simp only [tagP] at h
      cases h
      simp
  | cons c ct ih =>
      cases i with
      | nil => simp [tagP] at h
      | cons b bs =>
          simp only [tagP] at h
          by_cases hc : c = b
          · rw [if_pos hc] at h
            subst hc
            simp [ih h]
          · rw [if_neg hc] at h
            cases h

theorem tagP_incomplete_length {t i : List Nat} {n : Nat}
    (h : tagP t i = .incomplete n) : i.length < t.length := by
  induction t generalizing i with
  | nil => simp [tagP] at h
  | cons c ct ih =>
      cases i with
      | nil => simp
      | cons b bs =>
          simp only [tagP] at h
          by_cases hc : c = b
          · rw [if_pos hc] at h
            have := ih h
            simpa using this
          · rw [if_neg hc] at h
            cases h

theorem tagP_ne_failure {t i : List Nat} : tagP t i ≠ .failure := by
  induction t generalizing i with
  | nil => simp [tagP]
  | cons c ct ih =>
      cases i with
      | nil => simp [tagP]
      | cons b bs =>
          simp only [tagP]
          by_cases hc : c = b
          · rw [if_pos hc]
            exact ih
          · rw [if_neg hc]
            simp

theorem tagP_get_mismatch {t i : List Nat} {k c b : Nat}
    (ht : t.get? k = some c) (hi : i.get? k = some b) (hcb : c ≠ b) :
    tagP t i = .err := by
  induction k generalizing t i with
  | zero =>
      cases t with
      | nil => cases ht
      | cons c0 ct =>
          cases i with
          | nil => cases hi
          | cons b0 bs =>
              simp only [List.get?] at ht hi
              injection ht with htc
              injection hi with hib
              subst htc
              subst hib
              simp only [tagP]
              rw [if_neg hcb]
  | succ k ih =>
      cases t with
      | nil => cases ht
      | cons c0 ct =>
          cases i with
          | nil => cases hi
          | cons b0 bs =>
              simp only [List.get?] at ht hi
              simp only [tagP]
              by_cases hc : c0 = b0
              · rw [if_pos hc]
                exact ih ht hi
              · rw [if_neg hc]

/-- C8: the 8-byte protocol header — the ASCII literal "AMQP", one zero
byte, then version bytes 0, 9, 1 — decodes to
`ProtocolVersion{major 0, minor 9, revision 1}` with zero leftover; and any
input disagreeing with the five fixed bytes at a position where its byte is
present makes `parse_protocol_header` a decode error, not a success. -/
theorem claim_C8 {i : List Nat} {k b : Nat}
    (hk : k < 5) (hb : i.get? k = some b)
    (hne : (NAME_BYTES ++ [0]).get? k ≠ some b) :
    parse_protocol_header (NAME_BYTES ++ [0, 0, 9, 1]) = .ok [] ⟨0, 9, 1⟩ ∧
    parse_protocol_header i = .err := by
  refine ⟨by decide, ?_⟩
  rcases Nat.lt_or_ge k 4 with h4 | h4
  · have hkn : k < NAME_BYTES.length := by simp [NAME_BYTES]; omega
    have hc : NAME_BYTES.get? k = some (NAME_BYTES.get ⟨k, hkn⟩) :=
      List.get?_eq_get hkn
    have hcb : NAME_BYTES.get ⟨k, hkn⟩ ≠ b := by
      intro he
      apply hne
      rw [List.get?_append hkn, hc, he]
    have htag : tagP NAME_BYTES i = .err := tagP_get_mismatch hc hb hcb
    simp [parse_protocol_header, htag, PResult.bind]
  · have hk4 : k = 4 := by omega
    subst hk4
    have hb0 : b ≠ 0 := by
      intro he
      apply hne
      rw [he]
      decide
    cases htag : tagP NAME_BYTES i with
    | err => simp [parse_protocol_header, htag, PResult.bind]
    | failure => exact absurd htag tagP_ne_failure
    | incomplete n =>
        have hlti := tagP_incomplete_length htag
        have hlen : 4 < i.length := by
          rcases List.get?_eq_some.mp hb with ⟨hl, -⟩
          omega
        simp [NAME_BYTES] at hlti
        omega
    | ok i2 u =>
        cases u
        have hi : i = NAME_BYTES ++ i2 := tagP_ok_append htag
        have hb2 : i2.get? 0 = some b := by
          rw [hi, List.get?_append_right (by simp [NAME_BYTES])] at hb
          simpa [NAME_BYTES] using hb
        cases i2 with
        | nil => cases hb2
        | cons c tl =>
            have hcb : c = b := by
              simpa using hb2
            subst hcb
            simp only [parse_protocol_header, htag, PResult.bind, tagP]
            rw [if_neg (fun hh => hb0 hh.symm)]

theorem claim_C8_witness :
    (1 : Nat) < 5 ∧
    ([65, 78, 81, 80, 0, 0, 9, 1] : List Nat).get? 1 = some 78 ∧
    (NAME_BYTES ++ [0]).get? 1 ≠ some 78 ∧
    (parse_protocol_header (NAME_BYTES ++ [0, 0, 9, 1]) = .ok [] ⟨0, 9, 1⟩ ∧
     parse_protocol_header [65, 78, 81, 80, 0, 0, 9, 1] = .err) :=
  ⟨by decide, by decide, by decide,
    claim_C8 (show (1 : Nat) < 5 by decide)
      (show ([65, 78, 81, 80, 0, 0, 9, 1] : List Nat).get? 1 = some 78 by decide)
      (show (NAME_BYTES ++ [0]).get? 1 ≠ some 78 by decide)⟩

end AmqProtocol
